import Mathlib

/-!
Verification of the reconciliation and link-rewrite engine of
scripts/publish_docfx_to_confluence.py.

The development shallowly embeds the script:

* documentation units (entries of the DocFX cross-reference map) and the remote
  Confluence page store become Lean structures;
* Python dicts used only through get / insert / membership become functions
  String to Option Nat;
* the HTML fragment handled by lxml becomes an explicit element tree
  (parsing and serialisation are external capabilities of lxml; the tree
  operations performed by the script are modelled faithfully);
* the network side effects of the ConfluenceClient are modelled by explicit
  response records and by a trace of the mutating calls the script issues.
-/

/-- An entry of the DocFX cross-reference map (fields uid, href, name). -/
structure XrefEntry where
  uid : String
  href : String
  name : String
deriving DecidableEq, Repr

/-- A page in the Confluence store.  The docfx field holds the attached
docfx metadata property as a pair (docfx_uid, docfx_href), or none when the
page carries no such property. -/
structure RemotePage where
  id : Nat
  space : String
  title : String
  content : String
  version : Nat
  docfx : Option (String × String)
deriving DecidableEq, Repr

/-- The record produced by get_confluence_mappings for one page carrying
docfx metadata: keys confluence_id, docfx_uid, docfx_href. -/
structure ConfluenceMapping where
  confluence_id : Nat
  docfx_uid : String
  docfx_href : String
deriving DecidableEq, Repr

/-- The remote page store together with the id the server will assign to the
next created page. -/
structure Store where
  pages : List RemotePage
  nextId : Nat
deriving DecidableEq, Repr

/-- A Python dict from strings to Confluence ids, used by the script only
through get, membership and item assignment; modelled by its lookup
function. -/
abbrev Dict := String → Option Nat

def dictEmpty : Dict := fun _ => none

/-- Item assignment d[k] = v. -/
def dictInsert (d : Dict) (k : String) (v : Nat) : Dict :=
  fun q => if q = k then some v else d q

/-- An HTML element tree, the view of the content that lxml gives the
script: elements with a tag, an attribute dictionary and children, and text
nodes. -/
inductive HtmlNode where
  | text (s : String)
  | element (tag : String) (attrs : List (String × String)) (children : List HtmlNode)

/-- Lookup in an lxml attribute dictionary (anchor.attrib.get). -/
def getAttr (attrs : List (String × String)) (k : String) : Option String :=
  (attrs.find? (fun e => e.1 == k)).map (fun e => e.2)

/-- Item assignment in an lxml attribute dictionary: replaces the value of an
existing key in place, otherwise appends. -/
def setAttr (attrs : List (String × String)) (k v : String) : List (String × String) :=
  match attrs with
  | [] => [(k, v)]
  | (k0, v0) :: rest => if k0 == k then (k, v) :: rest else (k0, v0) :: setAttr rest k v

/-- Splitting of a class attribute value into its whitespace-separated
tokens; cur accumulates the characters of the token being read, reversed. -/
def classTokensAux (cur : List Char) : List Char → List (List Char)
  | [] => if cur.isEmpty then [] else [cur.reverse]
  | c :: rest =>
    if c.isWhitespace then
      if cur.isEmpty then classTokensAux [] rest
      else cur.reverse :: classTokensAux [] rest
    else classTokensAux (c :: cur) rest

/-- The whitespace-separated tokens of a class attribute value. -/
def classTokens (l : List Char) : List (List Char) :=
  classTokensAux [] l

/-- Whether the element's class attribute, split on whitespace, contains the
given class (the selector a.xref of cssselect). -/
def hasClass (attrs : List (String × String)) (c : String) : Bool :=
  match getAttr attrs "class" with
  | none => false
  | some v => (classTokens v.data).contains c.data

/-- Python str.lstrip with the single character slash. -/
def lstripSlash (s : String) : String :=
  String.mk (s.data.dropWhile (fun c => c == '/'))

/-- The part of s before the first occurrence of c (the whole of s when c is
absent). -/
def beforeFirst (s : String) (c : Char) : String :=
  String.mk (s.data.takeWhile (fun d => d != c))

/-- A character allowed in a URL scheme. -/
def schemeChar (c : Char) : Bool :=
  c.isAlphanum || c == '+' || c == '-' || c == '.'

/-- Modelled behaviour of urllib.parse: remove a leading scheme (a colon
preceded by an alphabetic character followed by scheme characters). -/
def stripScheme (s : String) : String :=
  match s.data.takeWhile (fun c => c != ':') with
  | [] => s
  | c :: rest =>
    if (c :: rest).length < s.data.length && c.isAlpha && (c :: rest).all schemeChar then
      String.mk (s.data.drop ((c :: rest).length + 1))
    else s

/-- Modelled behaviour of urllib.parse: remove a leading network location
(two slashes followed by everything up to the next slash). -/
def stripNetloc (s : String) : String :=
  match s.data with
  | '/' :: '/' :: rest => String.mk (rest.dropWhile (fun c => c != '/'))
  | _ => s

/-- Python str.replace on character lists: every non-overlapping occurrence
of the pattern, scanned from the left, is replaced; an empty pattern is
matched before every character and at the end.  The fuel argument bounds the
recursion and is sufficient whenever it is at least the length of the
subject list. -/
def pyReplaceAux (pattern repl : List Char) : Nat → List Char → List Char
  | _, [] => if pattern.isEmpty then repl else []
  | 0, s => s
  | fuel + 1, c :: rest =>
    if pattern.isEmpty then repl ++ c :: pyReplaceAux pattern repl fuel rest
    else if pattern.isPrefixOf (c :: rest) then
      repl ++ pyReplaceAux pattern repl fuel ((c :: rest).drop pattern.length)
    else c :: pyReplaceAux pattern repl fuel rest

/-- Python str.replace. -/
def pyReplace (s pattern repl : String) : String :=
  String.mk (pyReplaceAux pattern.data repl.data s.data.length s.data)

/-- Modelled from urllib.parse.urlparse: the path component of a URL, which
is what the script keeps from the six-tuple.  Fragment, query, scheme and
network location are removed. -/
def urlparsePath (href : String) : String :=
  stripNetloc (stripScheme (beforeFirst (beforeFirst href '#') '?'))

/-- Python os.path.dirname for the forward-slash paths the script builds:
everything before the last slash, with trailing slashes stripped unless the
result would be all slashes; the empty string when no slash occurs. -/
def dirnamePosix (p : String) : String :=
  let afterLast := p.data.reverse.takeWhile (fun c => c != '/')
  if afterLast.length == p.data.length then ""
  else
    let head := p.data.take (p.data.length - afterLast.length)
    if head.all (fun c => c == '/') then String.mk head
    else String.mk ((head.reverse.dropWhile (fun c => c == '/')).reverse)

/-- The warning printed by transform_links for an unresolved xref link (the
quotation marks of the Python format string are omitted). -/
def unresolvedWarning (relativePath : String) : String :=
  "WARNING - no mapping for xref link " ++ relativePath ++ "."

/-- The viewer URL substituted for the path of a resolved xref link. -/
def viewpageUrl (pageId : Nat) : String :=
  "/pages/viewpage.action?pageId=" ++ toString pageId

/-- The body of the per-anchor loop of transform_links, acting on the
attribute dictionary of one a.xref anchor: extract the href, compute the
relative path, look it up, and either rewrite the href by the naive
substring replacement of the source or leave it as is with a warning. -/
def rewriteAttrs (base_dir : String) (mappings : Dict) (attrs : List (String × String)) :
    List (String × String) × List String :=
  match getAttr attrs "href" with
  | none => (attrs, [])
  | some href =>
    let path := urlparsePath href
    let relative_path := base_dir ++ "/" ++ lstripSlash path
    match mappings relative_path with
    | none => (attrs, [unresolvedWarning relative_path])
    | some page_id => (setAttr attrs "href" (pyReplace href path (viewpageUrl page_id)), [])

/-- The tree transformation performed by transform_links: every descendant
anchor with class xref has its href rewritten through rewriteAttrs; other
nodes are kept; warnings are collected in document order. -/
def transformNodes (base_dir : String) (mappings : Dict) : List HtmlNode → List HtmlNode × List String
  | [] => ([], [])
  | .text s :: ns =>
    let rn := transformNodes base_dir mappings ns
    (.text s :: rn.1, rn.2)
  | .element tag attrs children :: ns =>
    let rc := transformNodes base_dir mappings children
    let rn := transformNodes base_dir mappings ns
    if tag == "a" && hasClass attrs "xref" then
      let ra := rewriteAttrs base_dir mappings attrs
      (.element tag ra.1 rc.1 :: rn.1, ra.2 ++ rc.2 ++ rn.2)
    else
      (.element tag attrs rc.1 :: rn.1, rc.2 ++ rn.2)

/-- Whether a list of nodes contains, at any depth, an anchor element
carrying the xref class marker. -/
def containsXrefAnchor : List HtmlNode → Bool
  | [] => false
  | .text _ :: ns => containsXrefAnchor ns
  | .element tag attrs children :: ns =>
    (tag == "a" && hasClass attrs "xref") || containsXrefAnchor children || containsXrefAnchor ns

/-- Serialisation of an element tree back to markup, standing in for
lxml.html.tostring. -/
def serializeList : List HtmlNode → String
  | [] => ""
  | .text s :: ns => s ++ serializeList ns
  | .element tag attrs children :: ns =>
    "<" ++ tag ++ String.join (attrs.map (fun a => " " ++ a.1 ++ "=" ++ "\"" ++ a.2 ++ "\"")) ++
      ">" ++ serializeList children ++ "</" ++ tag ++ ">" ++ serializeList ns

/-- Serialisation of one node. -/
def serializeNode (n : HtmlNode) : String :=
  serializeList [n]

/-- Joining of a list of strings by newlines. -/
def joinNewlines : List String → String
  | [] => ""
  | [s] => s
  | s :: rest => s ++ "\n" ++ joinNewlines rest

/-- The serialisation step at the end of transform_links: the top-level
children of the parsed fragment, serialised and joined by newlines. -/
def serializeFragment (ns : List HtmlNode) : String :=
  joinNewlines (ns.map serializeNode)

/-- transform_links of the source, with the fragment already parsed into its
element tree (parsing is the external lxml capability): returns the
serialised transformed markup together with the warnings printed. -/
def transform_links (base_dir : String) (content : List HtmlNode) (mappings : Dict) :
    String × List String :=
  let r := transformNodes base_dir mappings content
  (serializeFragment r.1, r.2)

/-- The JSON response to the page fetch GET content/id, restricted to the
fields the script reads: presence of the id key, version.number, space.key,
and the message used when the fetch fails. -/
structure FetchResp where
  id : Option String
  versionNumber : Nat
  spaceKey : String
  message : String
deriving DecidableEq, Repr

/-- The JSON response to the content PUT, restricted to the fields the
script reads: presence of the id key and the failure message. -/
structure PutResp where
  id : Option String
  message : String
deriving DecidableEq, Repr

/-- The JSON response to the metadata property DELETE: the message key when
present signals failure. -/
structure DelResp where
  message : Option String
deriving DecidableEq, Repr

/-- The JSON response to a metadata property POST.  The ok flag records
whether the server reported success; the script never reads this response. -/
structure PostResp where
  ok : Bool
  message : String
deriving DecidableEq, Repr

/-- The JSON response to the page creation POST, restricted to the fields
the script reads: the id of the new page when present, and the failure
message. -/
structure CreateResp where
  id : Option Nat
  message : String
deriving DecidableEq, Repr

/-- The error taxonomy of the specification for the bare exceptions the
script raises: RemoteNotFoundError for the update-target fetch that lacks an
identifier, RemoteRequestError for a mutating call whose response reports
failure. -/
inductive ClientError where
  | RemoteNotFoundError (message : String)
  | RemoteRequestError (message : String)
deriving DecidableEq, Repr

/-- The body of the content PUT issued by update_page, restricted to the
varying fields (the constant fields type=page and representation=storage are
omitted). -/
structure PutRequest where
  id : String
  title : String
  content : String
  space : String
  version : Nat
deriving DecidableEq, Repr

/-- A mutating call submitted to the server during update_page. -/
inductive RemoteCall where
  | put (req : PutRequest)
  | deleteProp (pageId : Nat)
  | postProp (pageId : Nat) (uid href : String)
deriving DecidableEq, Repr

namespace ConfluenceClient

/-- ConfluenceClient.create_page: issues the page creation POST and, when
the response carries an id, the metadata property POST.  The attach response
attachResp is never inspected; the page id is returned regardless. -/
def create_page (space_key title content docfx_uid docfx_href : String)
    (createResp : CreateResp) (attachResp : PostResp) : Except ClientError Nat :=
  match createResp.id with
  | none => Except.error (ClientError.RemoteRequestError createResp.message)
  | some page_id => Except.ok page_id

/-- ConfluenceClient.update_page: fetches the page (fetchResp), and when the
fetch carries an id submits the content PUT with version+1, the metadata
DELETE and the metadata POST, checking the first two responses but not the
last.  Returns the result together with the list of mutating calls
submitted, in order. -/
def update_page (page_id : Nat) (title content docfx_uid docfx_href : String)
    (fetchResp : FetchResp) (putResp : PutResp) (delResp : DelResp) (postResp : PostResp) :
    Except ClientError Nat × List RemoteCall :=
  match fetchResp.id with
  | none => (Except.error (ClientError.RemoteNotFoundError fetchResp.message), [])
  | some _ =>
    let req : PutRequest :=
      { id := toString page_id, title := title, content := content,
        space := fetchResp.spaceKey, version := fetchResp.versionNumber + 1 }
    match putResp.id with
    | none => (Except.error (ClientError.RemoteRequestError putResp.message), [RemoteCall.put req])
    | some _ =>
      match delResp.message with
      | some msg =>
        (Except.error (ClientError.RemoteRequestError msg),
          [RemoteCall.put req, RemoteCall.deleteProp page_id])
      | none =>
        (Except.ok page_id,
          [RemoteCall.put req, RemoteCall.deleteProp page_id,
            RemoteCall.postProp page_id docfx_uid docfx_href])

end ConfluenceClient

/-- The record get_confluence_mappings builds for one listed page, none for
a page lacking the docfx metadata property. -/
def pageRecord (p : RemotePage) : Option ConfluenceMapping :=
  match p.docfx with
  | none => none
  | some uh => some { confluence_id := p.id, docfx_uid := uh.1, docfx_href := uh.2 }

/-- The records of all pages carrying docfx metadata, in listing order. -/
def pageMappings (pages : List RemotePage) : List ConfluenceMapping :=
  pages.filterMap pageRecord

/-- The pagination loop of get_confluence_mappings: the listing endpoint is
queried with offset start and limit 50, the loop stops at the first response
of size zero, and pages lacking the docfx property are skipped.  The server
answers each query from the full page list. -/
def get_confluence_mappingsAux (pages : List RemotePage) (start : Nat) : List ConfluenceMapping :=
  if ((pages.drop start).take 50).length = 0 then []
  else ((pages.drop start).take 50).filterMap pageRecord ++ get_confluence_mappingsAux pages (start + 50)
termination_by pages.length - start
decreasing_by
  simp only [List.length_take, List.length_drop] at *
  omega

/-- get_confluence_mappings of the source, over a store whose listing is the
given page list. -/
def get_confluence_mappings (pages : List RemotePage) : List ConfluenceMapping :=
  get_confluence_mappingsAux pages 0

/-- The docfx_uid to confluence_id dict built by main (a Python dict
comprehension: later duplicate keys win). -/
def buildUidDict (entries : List ConfluenceMapping) : Dict :=
  entries.foldl (fun d e => dictInsert d e.docfx_uid e.confluence_id) dictEmpty

/-- The docfx_href to confluence_id dict built by main: keys are hrefs with
leading slashes stripped. -/
def buildHrefDict (entries : List ConfluenceMapping) : Dict :=
  entries.foldl (fun d e => dictInsert d (lstripSlash e.docfx_href) e.confluence_id) dictEmpty

/-- The derived page title of main: DocFX - name (uid). -/
def deriveTitle (m : XrefEntry) : String :=
  "DocFX - " ++ m.name ++ " (" ++ m.uid ++ ")"

/-- The placeholder content given to every created page. -/
def placeholderContent : String :=
  "<h1>Placeholder</h1>\nThis page is a placeholder."

/-- A mutating remote call of one reconciliation run: a page creation with
the id the server assigned, or a page content update. -/
inductive CallEvent where
  | create (space title content uid href : String) (resultId : Nat)
  | update (pageId : Nat) (title content uid href : String)
deriving DecidableEq, Repr

/-- Whether an event is a page creation. -/
def isCreate : CallEvent → Bool
  | CallEvent.create _ _ _ _ _ _ => true
  | CallEvent.update _ _ _ _ _ => false

/-- Whether an event is a page creation for the given DocFX uid. -/
def isCreateForUid (u : String) : CallEvent → Bool
  | CallEvent.create _ _ _ uid _ _ => uid == u
  | CallEvent.update _ _ _ _ _ => false

/-- The server-side effect of a successful page creation: the page is
appended with the next fresh id and the docfx metadata attached, at
version 1. -/
def storeCreate (st : Store) (space title content uid href : String) : Nat × Store :=
  (st.nextId,
    { pages := st.pages ++
        [{ id := st.nextId, space := space, title := title, content := content,
           version := 1, docfx := some (uid, href) }],
      nextId := st.nextId + 1 })

/-- The server-side effect of a successful page update: every page with the
given id gets the new title and content, its version bumped, and its docfx
metadata property replaced (deleted and recreated by the script). -/
def storeUpdate (st : Store) (page_id : Nat) (title content uid href : String) : Store :=
  { pages := st.pages.map (fun p =>
      if p.id = page_id then
        { p with title := title, content := content, version := p.version + 1,
                 docfx := some (uid, href) }
      else p),
    nextId := st.nextId }

/-- The state main threads through its two loops: the store, the two lookup
dicts, the working list of mappings to content-sync (each with its
confluence id), and the trace of mutating calls so far. -/
structure RunState where
  store : Store
  uidTable : Dict
  hrefTable : Dict
  existing : List (XrefEntry × Nat)
  events : List CallEvent

/-- The creation loop of main: for each unmatched mapping, in order, derive
the title, create the page with placeholder content in the literal space
TEST, record the new id in both dicts (the href dict under the raw href, not
the stripped one), and append the mapping to the working list. -/
def createLoop : List XrefEntry → RunState → RunState
  | [], s => s
  | m :: rest, s =>
    let title := deriveTitle m
    let r := storeCreate s.store "TEST" title placeholderContent m.uid m.href
    createLoop rest
      { store := r.2,
        uidTable := dictInsert s.uidTable m.uid r.1,
        hrefTable := dictInsert s.hrefTable m.href r.1,
        existing := s.existing ++ [(m, r.1)],
        events := s.events ++ [CallEvent.create "TEST" title placeholderContent m.uid m.href r.1] }

/-- The update loop of main: for each mapping of the working list, in order,
derive the title, read the page content (contentOf gives the parsed element
tree of the BOM-stripped file at the given href), rewrite its links against
the href dict, and update the remote page. -/
def updateLoop (contentOf : String → List HtmlNode) (hrefTable : Dict) :
    List (XrefEntry × Nat) → Store → List CallEvent → Store × List CallEvent
  | [], st, evs => (st, evs)
  | (m, cid) :: rest, st, evs =>
    let title := deriveTitle m
    let page_dir := dirnamePosix (lstripSlash m.href)
    let r := transform_links page_dir (contentOf m.href) hrefTable
    updateLoop contentOf hrefTable rest
      (storeUpdate st cid title r.1 m.uid m.href)
      (evs ++ [CallEvent.update cid title r.1 m.uid m.href])

/-- The docfx_uid dict of one run, built from the listing of the store. -/
def uidTableOf (st : Store) : Dict :=
  buildUidDict (get_confluence_mappings st.pages)

/-- The docfx_href dict of one run, built from the listing of the store. -/
def hrefTableOf (st : Store) : Dict :=
  buildHrefDict (get_confluence_mappings st.pages)

/-- The existing_mappings list right before the creation loop: the DocFX
mappings whose uid is matched in Confluence, in manifest order, each with
its confluence id (the unmatched ones draw a warning and are skipped). -/
def matchedOf (docfx_mappings : List XrefEntry) (st : Store) : List (XrefEntry × Nat) :=
  docfx_mappings.filterMap (fun m => ((uidTableOf st) m.uid).map (fun cid => (m, cid)))

/-- The new_mappings list: the DocFX mappings whose uid is absent from the
uid dict, in manifest order. -/
def newMappingsOf (docfx_mappings : List XrefEntry) (st : Store) : List XrefEntry :=
  docfx_mappings.filter (fun m => ((uidTableOf st) m.uid).isNone)

/-- The first half of main: list the remote pages, build the two dicts,
partition the DocFX mappings into matched and unmatched, and run the
creation loop over the unmatched ones. -/
def createPhase (docfx_mappings : List XrefEntry) (st : Store) : RunState :=
  createLoop (newMappingsOf docfx_mappings st)
    { store := st, uidTable := uidTableOf st, hrefTable := hrefTableOf st,
      existing := matchedOf docfx_mappings st, events := [] }

/-- The reconciliation run of main of the source, under a server whose
mutating calls all succeed.  confluence_space is the required
--confluence-space argument; it is parsed but never read by main.  Returns
the final store and the trace of mutating calls.  (Lean reserves the plain
name main for executables.) -/
def mainRun (confluence_space : String) (contentOf : String → List HtmlNode)
    (docfx_mappings : List XrefEntry) (st : Store) : Store × List CallEvent :=
  let s := createPhase docfx_mappings st
  updateLoop contentOf s.hrefTable s.existing s.store s.events

/-! Characterisation of the pagination loop: it returns exactly the records
of the pages carrying docfx metadata. -/

theorem get_confluence_mappingsAux_eq (pages : List RemotePage) (start : Nat) :
    get_confluence_mappingsAux pages start = pageMappings (pages.drop start) := by
  have H : ∀ (n start : Nat), pages.length - start ≤ n →
      get_confluence_mappingsAux pages start = pageMappings (pages.drop start) := by
    intro n
    induction n with
    | zero =>
      intro start hs
      have hnil : pages.drop start = [] := List.drop_eq_nil_of_le (by omega)
      rw [get_confluence_mappingsAux, hnil]
      simp [pageMappings]
    | succ n ih =>
      intro start hs
      rw [get_confluence_mappingsAux]
      by_cases h : ((pages.drop start).take 50).length = 0
      · rw [if_pos h]
        have hnil : pages.drop start = [] := by
          rw [List.length_take, List.length_drop] at h
          exact List.drop_eq_nil_of_le (by omega)
        simp [pageMappings, hnil]
      · rw [if_neg h]
        have hlt : start < pages.length := by
          rw [List.length_take, List.length_drop] at h
          omega
        rw [ih (start + 50) (by omega)]
        unfold pageMappings
        conv_rhs => rw [← List.take_append_drop 50 (pages.drop start)]
        rw [List.filterMap_append, List.drop_drop]
  exact H (pages.length - start) start le_rfl

theorem get_confluence_mappings_eq (pages : List RemotePage) :
    get_confluence_mappings pages = pageMappings pages := by
  rw [get_confluence_mappings, get_confluence_mappingsAux_eq, List.drop_zero]

theorem mem_pageMappings {pages : List RemotePage} {e : ConfluenceMapping} :
    e ∈ pageMappings pages ↔ ∃ p ∈ pages, pageRecord p = some e := by
  simp [pageMappings, List.mem_filterMap]

/-! Lemmas about folded dict insertions, covering the dict comprehensions of
main and the incremental extension performed by the creation loop. -/

theorem foldl_dictInsert_mono {α : Type} (key : α → String) (val : α → Nat)
    (l : List α) (d : Dict) (k : String)
    (h : (d k).isSome) :
    ((l.foldl (fun d e => dictInsert d (key e) (val e)) d) k).isSome := by
  induction l generalizing d with
  | nil => exact h
  | cons e rest ih =>
    simp only [List.foldl_cons]
    apply ih
    by_cases hk : k = key e <;> simp [dictInsert, hk, h]

theorem foldl_dictInsert_isSome {α : Type} (key : α → String) (val : α → Nat)
    (l : List α) (d : Dict) (k : String)
    (h : ∃ e ∈ l, key e = k) :
    ((l.foldl (fun d e => dictInsert d (key e) (val e)) d) k).isSome := by
  induction l generalizing d with
  | nil => simp at h
  | cons e rest ih =>
    simp only [List.foldl_cons]
    rcases h with ⟨e0, he0, hk⟩
    rcases List.mem_cons.mp he0 with rfl | hmem
    · exact foldl_dictInsert_mono key val rest _ k (by simp [dictInsert, hk])
    · exact ih _ ⟨e0, hmem, hk⟩

theorem foldl_dictInsert_some {α : Type} (key : α → String) (val : α → Nat)
    (l : List α) (d : Dict) (k : String) (c : Nat)
    (h : (l.foldl (fun d e => dictInsert d (key e) (val e)) d) k = some c) :
    d k = some c ∨ ∃ e ∈ l, key e = k ∧ val e = c := by
  induction l generalizing d with
  | nil => exact Or.inl h
  | cons e rest ih =>
    simp only [List.foldl_cons] at h
    rcases ih _ h with hd | ⟨e0, he0, hk, hv⟩
    · by_cases hk : k = key e
      · simp only [dictInsert, if_pos hk] at hd
        exact Or.inr ⟨e, List.mem_cons_self e rest, hk.symm, Option.some_inj.mp hd⟩
      · simp only [dictInsert, if_neg hk] at hd
        exact Or.inl hd
    · exact Or.inr ⟨e0, List.mem_cons_of_mem e he0, hk, hv⟩

theorem foldl_dictInsert_nokey {α : Type} (key : α → String) (val : α → Nat)
    (l : List α) (d : Dict) (k : String)
    (h : ∀ e ∈ l, key e ≠ k) :
    (l.foldl (fun d e => dictInsert d (key e) (val e)) d) k = d k := by
  induction l generalizing d with
  | nil => rfl
  | cons e rest ih =>
    simp only [List.foldl_cons]
    rw [ih _ (fun e0 he0 => h e0 (List.mem_cons_of_mem e he0))]
    have hne : k ≠ key e := fun hk => h e (List.mem_cons_self e rest) hk.symm
    simp [dictInsert, hne]

theorem foldl_dictInsert_lastwins {α : Type} (key : α → String) (val : α → Nat)
    (l : List α) (d : Dict) (k : String) (e0 : α)
    (hmem : e0 ∈ l) (hk : key e0 = k)
    (huniq : ∀ e ∈ l, key e = k → e = e0) :
    (l.foldl (fun d e => dictInsert d (key e) (val e)) d) k = some (val e0) := by
  induction l generalizing d with
  | nil => simp at hmem
  | cons e rest ih =>
    simp only [List.foldl_cons]
    by_cases hr : ∃ e1 ∈ rest, key e1 = k
    · rcases hr with ⟨e1, he1, hk1⟩
      have he10 : e1 = e0 := huniq e1 (List.mem_cons_of_mem e he1) hk1
      rw [he10] at he1
      exact ih _ he1 (fun e2 he2 hk2 => huniq e2 (List.mem_cons_of_mem e he2) hk2)
    · push_neg at hr
      rw [foldl_dictInsert_nokey key val rest _ k hr]
      have he0 : e0 = e := by
        rcases List.mem_cons.mp hmem with h0 | h0
        · exact h0
        · exact absurd hk (hr e0 h0)
      rw [← he0]
      simp [dictInsert, hk]

/-! Characterisation of the creation loop through the explicit assignment of
fresh server ids to the unmatched mappings, in order. -/

/-- The pairing of each unmatched mapping with the fresh id the server
assigns to it: ids are handed out consecutively from n. -/
def assignIds : List XrefEntry → Nat → List (XrefEntry × Nat)
  | [], _ => []
  | x :: rest, n => (x, n) :: assignIds rest (n + 1)

/-- The page the server holds right after the creation loop created the
mapping of e with assigned id. -/
def createdPage (e : XrefEntry × Nat) : RemotePage :=
  { id := e.2, space := "TEST", title := deriveTitle e.1, content := placeholderContent,
    version := 1, docfx := some (e.1.uid, e.1.href) }

/-- The trace event of the creation of e. -/
def createEventOf (e : XrefEntry × Nat) : CallEvent :=
  CallEvent.create "TEST" (deriveTitle e.1) placeholderContent e.1.uid e.1.href e.2

theorem mem_assignIds_fst {xs : List XrefEntry} {n : Nat} {e : XrefEntry × Nat}
    (h : e ∈ assignIds xs n) : e.1 ∈ xs := by
  induction xs generalizing n with
  | nil => simp [assignIds] at h
  | cons x rest ih =>
    rcases List.mem_cons.mp h with rfl | hmem
    · exact List.mem_cons_self x rest
    · exact List.mem_cons_of_mem x (ih hmem)

theorem mem_assignIds_lb {xs : List XrefEntry} {n : Nat} {e : XrefEntry × Nat}
    (h : e ∈ assignIds xs n) : n ≤ e.2 := by
  induction xs generalizing n with
  | nil => simp [assignIds] at h
  | cons x rest ih =>
    rcases List.mem_cons.mp h with rfl | hmem
    · exact le_rfl
    · exact le_of_lt (lt_of_lt_of_le (Nat.lt_succ_self n) (ih hmem))

theorem exists_assignIds {xs : List XrefEntry} {x : XrefEntry} (h : x ∈ xs) (n : Nat) :
    ∃ p, (x, p) ∈ assignIds xs n := by
  induction xs generalizing n with
  | nil => simp at h
  | cons y rest ih =>
    rcases List.mem_cons.mp h with rfl | hmem
    · exact ⟨n, List.mem_cons_self _ _⟩
    · rcases ih hmem (n + 1) with ⟨p, hp⟩
      exact ⟨p, List.mem_cons_of_mem _ hp⟩

/-- In the list of id assignments, an id determines its entry. -/
theorem assignIds_id_inj {xs : List XrefEntry} {n : Nat} {e1 e2 : XrefEntry × Nat}
    (h1 : e1 ∈ assignIds xs n) (h2 : e2 ∈ assignIds xs n) (h : e1.2 = e2.2) : e1 = e2 := by
  induction xs generalizing n with
  | nil => simp [assignIds] at h1
  | cons x rest ih =>
    rcases List.mem_cons.mp h1 with rfl | hm1 <;> rcases List.mem_cons.mp h2 with rfl | hm2
    · rfl
    · exfalso
      have hlb := mem_assignIds_lb hm2
      simp only [] at h
      omega
    · exfalso
      have hlb := mem_assignIds_lb hm1
      simp only [] at h
      omega
    · exact ih hm1 hm2

theorem createLoop_store_pages (xs : List XrefEntry) (s : RunState) :
    (createLoop xs s).store.pages =
      s.store.pages ++ (assignIds xs s.store.nextId).map createdPage := by
  induction xs generalizing s with
  | nil => simp [createLoop, assignIds]
  | cons x rest ih =>
    rw [createLoop, ih]
    simp [storeCreate, assignIds, createdPage]

theorem createLoop_store_nextId (xs : List XrefEntry) (s : RunState) :
    (createLoop xs s).store.nextId = s.store.nextId + xs.length := by
  induction xs generalizing s with
  | nil => simp [createLoop]
  | cons x rest ih =>
    rw [createLoop, ih]
    simp [storeCreate]
    omega

theorem createLoop_existing (xs : List XrefEntry) (s : RunState) :
    (createLoop xs s).existing = s.existing ++ assignIds xs s.store.nextId := by
  induction xs generalizing s with
  | nil => simp [createLoop, assignIds]
  | cons x rest ih =>
    rw [createLoop, ih]
    simp [storeCreate, assignIds]

theorem createLoop_events (xs : List XrefEntry) (s : RunState) :
    (createLoop xs s).events =
      s.events ++ (assignIds xs s.store.nextId).map createEventOf := by
  induction xs generalizing s with
  | nil => simp [createLoop, assignIds]
  | cons x rest ih =>
    rw [createLoop, ih]
    simp [storeCreate, assignIds, createEventOf]

theorem createLoop_uidTable (xs : List XrefEntry) (s : RunState) :
    (createLoop xs s).uidTable =
      (assignIds xs s.store.nextId).foldl (fun d e => dictInsert d e.1.uid e.2) s.uidTable := by
  induction xs generalizing s with
  | nil => simp [createLoop, assignIds]
  | cons x rest ih =>
    rw [createLoop, ih]
    simp [storeCreate, assignIds]

theorem createLoop_hrefTable (xs : List XrefEntry) (s : RunState) :
    (createLoop xs s).hrefTable =
      (assignIds xs s.store.nextId).foldl (fun d e => dictInsert d e.1.href e.2) s.hrefTable := by
  induction xs generalizing s with
  | nil => simp [createLoop, assignIds]
  | cons x rest ih =>
    rw [createLoop, ih]
    simp [storeCreate, assignIds]

/-! Characterisation of the update loop. -/

/-- The trace event of the update of e against the href table and the
content source. -/
def updateEventOf (contentOf : String → List HtmlNode) (hrefTable : Dict)
    (e : XrefEntry × Nat) : CallEvent :=
  CallEvent.update e.2 (deriveTitle e.1)
    (transform_links (dirnamePosix (lstripSlash e.1.href)) (contentOf e.1.href) hrefTable).1
    e.1.uid e.1.href

theorem updateLoop_events (contentOf : String → List HtmlNode) (hrefTable : Dict)
    (maps : List (XrefEntry × Nat)) (st : Store) (evs : List CallEvent) :
    (updateLoop contentOf hrefTable maps st evs).2 =
      evs ++ maps.map (updateEventOf contentOf hrefTable) := by
  induction maps generalizing st evs with
  | nil => simp [updateLoop]
  | cons e rest ih =>
    rw [updateLoop, ih]
    simp [updateEventOf]

/-- Preservation through the update loop of the presence of a page with a
given id and docfx uid, provided every update aimed at that id carries that
same uid.  This is the key invariant behind run-to-run idempotence. -/
theorem updateLoop_covers (contentOf : String → List HtmlNode) (hrefTable : Dict)
    (maps : List (XrefEntry × Nat)) (st : Store) (evs : List CallEvent)
    (i : Nat) (u : String)
    (hp : ∃ p ∈ st.pages, p.id = i ∧ ∃ h, p.docfx = some (u, h))
    (hm : ∀ e ∈ maps, e.2 = i → e.1.uid = u) :
    ∃ p ∈ (updateLoop contentOf hrefTable maps st evs).1.pages,
      p.id = i ∧ ∃ h, p.docfx = some (u, h) := by
  induction maps generalizing st evs with
  | nil => exact hp
  | cons e rest ih =>
    rw [updateLoop]
    apply ih
    · rcases hp with ⟨p, hmem, hid, h0, hdocfx⟩
      simp only [storeUpdate]
      by_cases hpe : p.id = e.2
      · refine ⟨_, List.mem_map.mpr ⟨p, hmem, rfl⟩, ?_⟩
        rw [if_pos hpe]
        refine ⟨hid, e.1.href, ?_⟩
        have huid : e.1.uid = u := hm e (List.mem_cons_self e rest) (by omega)
        rw [huid]
      · refine ⟨_, List.mem_map.mpr ⟨p, hmem, rfl⟩, ?_⟩
        rw [if_neg hpe]
        exact ⟨hid, h0, hdocfx⟩
    · exact fun e2 he2 hi2 => hm e2 (List.mem_cons_of_mem e he2) hi2

/-! Lookup facts about the run-start dicts and mapping partitions. -/

theorem buildUidDict_some {entries : List ConfluenceMapping} {u : String} {c : Nat}
    (h : buildUidDict entries u = some c) :
    ∃ e ∈ entries, e.docfx_uid = u ∧ e.confluence_id = c := by
  rcases foldl_dictInsert_some ConfluenceMapping.docfx_uid ConfluenceMapping.confluence_id
      entries dictEmpty u c h with h0 | h0
  · exact absurd h0 (by simp [dictEmpty])
  · exact h0

/-- A successful uid lookup at run start comes from a page of the store
carrying that uid in its docfx metadata and having the looked-up id. -/
theorem uidTableOf_some {st : Store} {u : String} {c : Nat}
    (h : uidTableOf st u = some c) :
    ∃ p ∈ st.pages, p.id = c ∧ ∃ hr, p.docfx = some (u, hr) := by
  rw [uidTableOf, get_confluence_mappings_eq] at h
  rcases buildUidDict_some h with ⟨e, hmem, hu, hc⟩
  rcases mem_pageMappings.mp hmem with ⟨p, hp, hrec⟩
  cases hd : p.docfx with
  | none => rw [pageRecord, hd] at hrec; simp at hrec
  | some uh =>
    rw [pageRecord, hd] at hrec
    simp only [Option.some_inj] at hrec
    refine ⟨p, hp, ?_, uh.2, ?_⟩
    · rw [← hc, ← hrec]
    · rw [hd, ← hu, ← hrec]

/-- With pairwise distinct page ids, the uid dict is injective: two uids
resolving to the same confluence id are equal. -/
theorem uidTableOf_inj {st : Store} (hids : (st.pages.map RemotePage.id).Nodup)
    {u u' : String} {c : Nat}
    (h : uidTableOf st u = some c) (h' : uidTableOf st u' = some c) : u = u' := by
  rcases uidTableOf_some h with ⟨p, hp, hpc, hr, hd⟩
  rcases uidTableOf_some h' with ⟨q, hq, hqc, hr', hd'⟩
  have hpq : p = q := List.inj_on_of_nodup_map hids hp hq (by rw [hpc, hqc])
  subst hpq
  rw [hd] at hd'
  simp only [Option.some_inj, Prod.mk.injEq] at hd'
  exact hd'.1

/-- When every stored page id is below nextId, so is every id the uid dict
resolves to. -/
theorem uidTableOf_lt {st : Store} (hfresh : ∀ p ∈ st.pages, p.id < st.nextId)
    {u : String} {c : Nat} (h : uidTableOf st u = some c) : c < st.nextId := by
  rcases uidTableOf_some h with ⟨p, hp, hpc, _⟩
  exact hpc ▸ hfresh p hp

theorem mem_matchedOf {xrefs : List XrefEntry} {st : Store} {e : XrefEntry × Nat}
    (h : e ∈ matchedOf xrefs st) :
    e.1 ∈ xrefs ∧ uidTableOf st e.1.uid = some e.2 := by
  rcases List.mem_filterMap.mp h with ⟨m, hm, hmap⟩
  cases ht : uidTableOf st m.uid with
  | none => rw [ht] at hmap; simp at hmap
  | some cid =>
    rw [ht] at hmap
    have hme : (m, cid) = e := by simpa using hmap
    rw [← hme]
    exact ⟨hm, ht⟩

theorem matchedOf_mem {xrefs : List XrefEntry} {st : Store} {x : XrefEntry}
    (hx : x ∈ xrefs) {c : Nat} (h : uidTableOf st x.uid = some c) :
    (x, c) ∈ matchedOf xrefs st :=
  List.mem_filterMap.mpr ⟨x, hx, by rw [h]; rfl⟩

theorem mem_newMappingsOf {xrefs : List XrefEntry} {st : Store} {x : XrefEntry} :
    x ∈ newMappingsOf xrefs st ↔ x ∈ xrefs ∧ uidTableOf st x.uid = none := by
  simp [newMappingsOf, List.mem_filter, Option.isNone_iff_eq_none]

/-- A uid carried by some stored page is matched by the run-start dict. -/
theorem uidTableOf_isSome_of_covered {st : Store} {u : String}
    (h : ∃ p ∈ st.pages, ∃ hr, p.docfx = some (u, hr)) : (uidTableOf st u).isSome := by
  rcases h with ⟨p, hp, hr, hd⟩
  rw [uidTableOf, get_confluence_mappings_eq]
  apply foldl_dictInsert_isSome
  exact ⟨⟨p.id, u, hr⟩, mem_pageMappings.mpr ⟨p, hp, by simp [pageRecord, hd]⟩, rfl⟩

/-- After one run over a well-formed store (distinct page ids, all below the
next fresh id), every DocFX uid of the manifest is carried by some stored
page: matched pages keep their uid through the updates and unmatched ones
were created with it attached. -/
theorem mainRun_covers (sp : String) (cf : String → List HtmlNode)
    (xrefs : List XrefEntry) (st : Store)
    (hids : (st.pages.map RemotePage.id).Nodup)
    (hfresh : ∀ p ∈ st.pages, p.id < st.nextId)
    (x : XrefEntry) (hx : x ∈ xrefs) :
    ∃ p ∈ (mainRun sp cf xrefs st).1.pages, ∃ hr, p.docfx = some (x.uid, hr) := by
  rw [mainRun]
  have hex : (createPhase xrefs st).existing =
      matchedOf xrefs st ++ assignIds (newMappingsOf xrefs st) st.nextId := by
    rw [createPhase, createLoop_existing]
  have hpg : (createPhase xrefs st).store.pages =
      st.pages ++ (assignIds (newMappingsOf xrefs st) st.nextId).map createdPage := by
    rw [createPhase, createLoop_store_pages]
  cases ht : uidTableOf st x.uid with
  | some c =>
    rcases uidTableOf_some ht with ⟨p0, hp0, hp0c, hr0, hd0⟩
    have hcov := updateLoop_covers cf (createPhase xrefs st).hrefTable
      (createPhase xrefs st).existing (createPhase xrefs st).store
      (createPhase xrefs st).events c x.uid
      ⟨p0, by rw [hpg]; exact List.mem_append.mpr (Or.inl hp0), hp0c, hr0, hd0⟩
      (by
        intro e he hec
        rw [hex] at he
        rcases List.mem_append.mp he with hm | hm
        · rcases mem_matchedOf hm with ⟨_, hte⟩
          exact uidTableOf_inj hids (hec ▸ hte) ht
        · exfalso
          have := mem_assignIds_lb hm
          have := uidTableOf_lt hfresh ht
          omega)
    rcases hcov with ⟨p, hp, _, hr, hd⟩
    exact ⟨p, hp, hr, hd⟩
  | none =>
    have hxnew : x ∈ newMappingsOf xrefs st := mem_newMappingsOf.mpr ⟨hx, ht⟩
    rcases exists_assignIds hxnew st.nextId with ⟨pid, hpid⟩
    have hcov := updateLoop_covers cf (createPhase xrefs st).hrefTable
      (createPhase xrefs st).existing (createPhase xrefs st).store
      (createPhase xrefs st).events pid x.uid
      ⟨createdPage (x, pid),
        by rw [hpg]; exact List.mem_append.mpr (Or.inr (List.mem_map.mpr ⟨(x, pid), hpid, rfl⟩)),
        rfl, x.href, rfl⟩
      (by
        intro e he hec
        rw [hex] at he
        rcases List.mem_append.mp he with hm | hm
        · exfalso
          rcases mem_matchedOf hm with ⟨_, hte⟩
          have := uidTableOf_lt hfresh hte
          have := mem_assignIds_lb hpid
          omega
        · have := assignIds_id_inj hm hpid hec
          rw [this])
    rcases hcov with ⟨p, hp, _, hr, hd⟩
    exact ⟨p, hp, hr, hd⟩

/-- C1: for every remote page store (well formed: pairwise distinct page ids
all below the next fresh id) and every list of documentation units, running
the reconciliation twice in succession with no external change performs zero
page-creation calls on the second run: every unit created in the first run
is matched by its uid through the attached docfx metadata, so the second run
only updates. -/
theorem claim_C1 (sp : String) (cf : String → List HtmlNode)
    (xrefs : List XrefEntry) (st : Store)
    (hids : (st.pages.map RemotePage.id).Nodup)
    (hfresh : ∀ p ∈ st.pages, p.id < st.nextId) :
    ((mainRun sp cf xrefs (mainRun sp cf xrefs st).1).2.filter isCreate) = [] := by
  have hnew : newMappingsOf xrefs (mainRun sp cf xrefs st).1 = [] := by
    apply List.filter_eq_nil_iff.mpr
    intro m hm
    have hs : (uidTableOf (mainRun sp cf xrefs st).1 m.uid).isSome :=
      uidTableOf_isSome_of_covered (mainRun_covers sp cf xrefs st hids hfresh m hm)
    simp only [Option.isNone_iff_eq_none, Bool.not_eq_true]
    intro hnone
    rw [hnone] at hs
    simp at hs
  conv_lhs => rw [mainRun]
  rw [updateLoop_events]
  have hev : (createPhase xrefs (mainRun sp cf xrefs st).1).events = [] := by
    rw [createPhase, createLoop_events, hnew]
    simp [assignIds]
  rw [hev, List.nil_append]
  apply List.filter_eq_nil_iff.mpr
  intro e he
  rcases List.mem_map.mp he with ⟨a, _, rfl⟩
  simp [updateEventOf, isCreate]

/-- Witness for C1 at a concrete input: a singleton manifest over the empty
store. -/
theorem claim_C1_witness :
    ((([] : List RemotePage).map RemotePage.id).Nodup ∧
      (∀ p ∈ ([] : List RemotePage), p.id < 0)) ∧
    ((mainRun "SPACE" (fun _ => []) [⟨"a", "a.html", "A"⟩]
        (mainRun "SPACE" (fun _ => []) [⟨"a", "a.html", "A"⟩] ⟨[], 0⟩).1).2.filter isCreate) = [] :=
  ⟨⟨by simp, by simp⟩,
    claim_C1 "SPACE" (fun _ => []) [⟨"a", "a.html", "A"⟩] ⟨[], 0⟩ (by simp) (by simp)⟩

/-! Helper rewrites that eliminate the well-founded recursions from concrete
runs: the pagination loop is replaced by its characterisation and the link
rewrite of an empty fragment is evaluated. -/

theorem uidTableOf_eq (st : Store) :
    uidTableOf st = buildUidDict (pageMappings st.pages) := by
  rw [uidTableOf, get_confluence_mappings_eq]

theorem hrefTableOf_eq (st : Store) :
    hrefTableOf st = buildHrefDict (pageMappings st.pages) := by
  rw [hrefTableOf, get_confluence_mappings_eq]

theorem transformNodes_nil (b : String) (m : Dict) : transformNodes b m [] = ([], []) := by
  simp [transformNodes]

/-- Update events of a run whose on-disk pages are all empty fragments:
the uploaded content is the empty serialisation. -/
theorem updateEventOf_nilContent (H : Dict) :
    updateEventOf (fun _ => []) H =
      fun e => CallEvent.update e.2 (deriveTitle e.1) "" e.1.uid e.1.href := by
  funext e
  simp [updateEventOf, transform_links, transformNodes_nil, serializeFragment, joinNewlines]

/-- C2: on a manifest with exactly the units (uid a, href a.html, name A)
and (uid b, href sub/b.html, name B), against a store already holding a page
whose attached identifier is a, the run performs exactly one create call
(for b), followed by exactly two update calls, for a then b in that order,
each update carrying the derived titles DocFX - A (a) and DocFX - B (b). -/
theorem claim_C2 :
    (mainRun "ANY" (fun _ => []) [⟨"a", "a.html", "A"⟩, ⟨"b", "sub/b.html", "B"⟩]
      ⟨[⟨7, "TEST", "old", "", 3, some ("a", "a.html")⟩], 100⟩).2 =
    [CallEvent.create "TEST" "DocFX - B (b)" placeholderContent "b" "sub/b.html" 100,
     CallEvent.update 7 "DocFX - A (a)" "" "a" "a.html",
     CallEvent.update 100 "DocFX - B (b)" "" "b" "sub/b.html"] := by
  simp only [mainRun, createPhase, updateLoop_events, updateEventOf_nilContent,
    matchedOf, newMappingsOf, uidTableOf_eq, hrefTableOf_eq]
  decide

/-- When the projections f of the unmatched mappings are pairwise distinct,
the entry of x is the only id assignment whose projection matches. -/
theorem assignIds_filter_unique (f : XrefEntry → String) {xs : List XrefEntry}
    (hnd : (xs.map f).Nodup) {x : XrefEntry} {p : Nat} {n : Nat}
    (hmem : (x, p) ∈ assignIds xs n) :
    (assignIds xs n).filter (fun e => f e.1 == f x) = [(x, p)] := by
  induction xs generalizing n with
  | nil => simp [assignIds] at hmem
  | cons y rest ih =>
    rw [List.map_cons, List.nodup_cons] at hnd
    rcases List.mem_cons.mp hmem with h0 | h0
    · have hxy : y = x := by
        have := congrArg Prod.fst h0
        exact this.symm
      subst hxy
      rw [assignIds, List.filter_cons]
      have hn : n = p := by
        have := congrArg Prod.snd h0
        exact this.symm
      subst hn
      simp only [beq_self_eq_true, if_pos]
      have hrest : (assignIds rest (n + 1)).filter (fun e => f e.1 == f y) = [] := by
        apply List.filter_eq_nil_iff.mpr
        intro e he
        have : f e.1 ∈ rest.map f := List.mem_map.mpr ⟨e.1, mem_assignIds_fst he, rfl⟩
        simp only [beq_iff_eq]
        intro hfe
        exact hnd.1 (hfe ▸ this)
      rw [hrest]
    · have hxrest : x ∈ rest := mem_assignIds_fst h0
      have hne : (f y == f x) = false := by
        simp only [beq_eq_false_iff_ne, ne_eq]
        intro hfe
        exact hnd.1 (hfe ▸ List.mem_map.mpr ⟨x, hxrest, rfl⟩)
      rw [assignIds, List.filter_cons]
      simp only [hne, Bool.false_eq_true, if_neg, if_false]
      exact ih hnd.2 h0

/-- C3: any documentation unit whose uid is absent from the uid lookup dict
at run start is created exactly once during the run, and immediately after
the creation loop both lookup dicts resolve the unit (the uid dict at its
uid, the href dict at its href, both to the id of the page just created), so
the link rewriting performed afterwards in the same run can resolve
references to the just-created page.  Uids and hrefs of the manifest are
assumed pairwise distinct, as the data model requires. -/
theorem claim_C3 (sp : String) (cf : String → List HtmlNode)
    (xrefs : List XrefEntry) (st : Store) (u : XrefEntry)
    (huids : (xrefs.map XrefEntry.uid).Nodup)
    (hhrefs : (xrefs.map XrefEntry.href).Nodup)
    (hmem : u ∈ xrefs)
    (habs : uidTableOf st u.uid = none) :
    ∃ pid,
      ((mainRun sp cf xrefs st).2.filter (isCreateForUid u.uid)) =
        [CallEvent.create "TEST" (deriveTitle u) placeholderContent u.uid u.href pid] ∧
      (createPhase xrefs st).uidTable u.uid = some pid ∧
      (createPhase xrefs st).hrefTable u.href = some pid := by
  have hunew : u ∈ newMappingsOf xrefs st := mem_newMappingsOf.mpr ⟨hmem, habs⟩
  have hndu : ((newMappingsOf xrefs st).map XrefEntry.uid).Nodup :=
    ((List.filter_sublist xrefs).map XrefEntry.uid).nodup huids
  have hndh : ((newMappingsOf xrefs st).map XrefEntry.href).Nodup :=
    ((List.filter_sublist xrefs).map XrefEntry.href).nodup hhrefs
  rcases exists_assignIds hunew st.nextId with ⟨pid, hpair⟩
  have hfilu := assignIds_filter_unique XrefEntry.uid hndu hpair
  have hfilh := assignIds_filter_unique XrefEntry.href hndh hpair
  refine ⟨pid, ?_, ?_, ?_⟩
  · conv_lhs => rw [mainRun]
    rw [updateLoop_events, List.filter_append]
    have hupd : (((createPhase xrefs st).existing.map
        (updateEventOf cf (createPhase xrefs st).hrefTable)).filter (isCreateForUid u.uid)) = [] := by
      apply List.filter_eq_nil_iff.mpr
      intro e he
      rcases List.mem_map.mp he with ⟨a, _, rfl⟩
      simp [updateEventOf, isCreateForUid]
    rw [hupd, List.append_nil]
    rw [createPhase, createLoop_events, List.nil_append, List.filter_map]
    have hcomp : (isCreateForUid u.uid ∘ createEventOf) = fun e => XrefEntry.uid e.1 == XrefEntry.uid u := by
      funext e
      simp [isCreateForUid, createEventOf]
    rw [hcomp, hfilu]
    rfl
  · rw [createPhase, createLoop_uidTable]
    apply foldl_dictInsert_lastwins (fun e => e.1.uid) (fun e => e.2) _ _ _ (u, pid) hpair rfl
    intro e he hke
    have : e ∈ (assignIds (newMappingsOf xrefs st) st.nextId).filter
        (fun e => XrefEntry.uid e.1 == XrefEntry.uid u) :=
      List.mem_filter.mpr ⟨he, by simp [hke]⟩
    rw [hfilu] at this
    simpa using this
  · rw [createPhase, createLoop_hrefTable]
    apply foldl_dictInsert_lastwins (fun e => e.1.href) (fun e => e.2) _ _ _ (u, pid) hpair rfl
    intro e he hke
    have : e ∈ (assignIds (newMappingsOf xrefs st) st.nextId).filter
        (fun e => XrefEntry.href e.1 == XrefEntry.href u) :=
      List.mem_filter.mpr ⟨he, by simp [hke]⟩
    rw [hfilh] at this
    simpa using this

/-- Witness for C3 at a concrete input: one unit over the empty store. -/
theorem claim_C3_witness :
    (((([⟨"b", "sub/b.html", "B"⟩] : List XrefEntry).map XrefEntry.uid).Nodup ∧
       (([⟨"b", "sub/b.html", "B"⟩] : List XrefEntry).map XrefEntry.href).Nodup) ∧
      (⟨"b", "sub/b.html", "B"⟩ : XrefEntry) ∈ ([⟨"b", "sub/b.html", "B"⟩] : List XrefEntry) ∧
      uidTableOf ⟨[], 5⟩ "b" = none) ∧
    ∃ pid,
      ((mainRun "S" (fun _ => []) [⟨"b", "sub/b.html", "B"⟩] ⟨[], 5⟩).2.filter
          (isCreateForUid "b")) =
        [CallEvent.create "TEST" (deriveTitle ⟨"b", "sub/b.html", "B"⟩) placeholderContent
          "b" "sub/b.html" pid] ∧
      (createPhase [⟨"b", "sub/b.html", "B"⟩] ⟨[], 5⟩).uidTable "b" = some pid ∧
      (createPhase [⟨"b", "sub/b.html", "B"⟩] ⟨[], 5⟩).hrefTable "sub/b.html" = some pid :=
  ⟨⟨⟨by simp, by simp⟩, by simp, by rw [uidTableOf_eq]; rfl⟩,
    claim_C3 "S" (fun _ => []) [⟨"b", "sub/b.html", "B"⟩] ⟨[], 5⟩ ⟨"b", "sub/b.html", "B"⟩
      (by simp) (by simp) (by simp) (by rw [uidTableOf_eq]; rfl)⟩

/-- The markup fragment of the C4 scenario, parsed: one xref anchor with an
href carrying a fragment component. -/
def c4Fragment : List HtmlNode :=
  [HtmlNode.element "a" [("class", "xref"), ("href", "/c.html#frag")] [HtmlNode.text "C"]]

/-- C4 counterexample: under the map keyed c.html with base path empty, the
rewrite does not touch the anchor at all: the relative path the code
computes is /c.html (the base path and a slash are always prepended), the
lookup misses, a warning is emitted, and the href stays /c.html#frag rather
than becoming the claimed viewer URL. -/
theorem claim_C4_counterexample :
    (transformNodes "" (dictInsert dictEmpty "c.html" 42) c4Fragment).1 = c4Fragment ∧
    (transformNodes "" (dictInsert dictEmpty "c.html" 42) c4Fragment).2 =
      [unresolvedWarning "/c.html"] ∧
    c4Fragment ≠
      [HtmlNode.element "a" [("class", "xref"), ("href", "/pages/viewpage.action?pageId=42#frag")]
        [HtmlNode.text "C"]] := by
  have h1 : hasClass [("class", "xref"), ("href", "/c.html#frag")] "xref" = true := by decide
  have h2 : getAttr [("class", "xref"), ("href", "/c.html#frag")] "href" =
      some "/c.html#frag" := by decide
  have h4 : ("" ++ "/" ++ lstripSlash (urlparsePath "/c.html#frag")) = "/c.html" := by decide
  have h3 : (dictInsert dictEmpty "c.html" 42) "/c.html" = none := by decide
  refine ⟨?_, ?_, ?_⟩
  · simp only [c4Fragment, transformNodes, rewriteAttrs, h1, h2, h4, h3]
    simp
  · simp only [c4Fragment, transformNodes, rewriteAttrs, h1, h2, h4, h3]
    simp
  · simp [c4Fragment]

/-- C4 (amended): the relative path actually computed for the anchor is
/c.html, so the rewrite fires when the map is keyed by that path; it then
replaces exactly the path component of the href with the viewer URL,
preserving the fragment component. -/
theorem claim_C4_amended :
    transformNodes "" (dictInsert dictEmpty "/c.html" 42) c4Fragment =
      ([HtmlNode.element "a"
          [("class", "xref"), ("href", "/pages/viewpage.action?pageId=42#frag")]
          [HtmlNode.text "C"]], []) := by
  have h1 : hasClass [("class", "xref"), ("href", "/c.html#frag")] "xref" = true := by decide
  have h2 : getAttr [("class", "xref"), ("href", "/c.html#frag")] "href" =
      some "/c.html#frag" := by decide
  have h4 : ("" ++ "/" ++ lstripSlash (urlparsePath "/c.html#frag")) = "/c.html" := by decide
  have h3 : (dictInsert dictEmpty "/c.html" 42) "/c.html" = some 42 := by decide
  have h5 : setAttr [("class", "xref"), ("href", "/c.html#frag")] "href"
      (pyReplace "/c.html#frag" (urlparsePath "/c.html#frag") (viewpageUrl 42)) =
      [("class", "xref"), ("href", "/pages/viewpage.action?pageId=42#frag")] := by decide
  simp only [c4Fragment, transformNodes, rewriteAttrs, h1, h2, h4, h3, h5]
  simp

/-- C6: a cross-reference anchor whose computed relative path is absent from
the path map keeps its attribute dictionary (in particular its href) exactly
as it was, contributes one warning, and raises nothing; the children of the
anchor and the rest of the markup are processed normally. -/
theorem claim_C6 (base_dir : String) (mappings : Dict)
    (attrs : List (String × String)) (children rest : List HtmlNode) (href : String)
    (hcls : hasClass attrs "xref" = true)
    (hhref : getAttr attrs "href" = some href)
    (habs : mappings (base_dir ++ "/" ++ lstripSlash (urlparsePath href)) = none) :
    transformNodes base_dir mappings (HtmlNode.element "a" attrs children :: rest) =
      (HtmlNode.element "a" attrs (transformNodes base_dir mappings children).1 ::
          (transformNodes base_dir mappings rest).1,
        unresolvedWarning (base_dir ++ "/" ++ lstripSlash (urlparsePath href)) ::
          ((transformNodes base_dir mappings children).2 ++
            (transformNodes base_dir mappings rest).2)) := by
  conv_lhs => rw [transformNodes]
  simp only [rewriteAttrs, hhref, hcls, habs, beq_self_eq_true, Bool.true_and, if_true,
    List.singleton_append, List.cons_append, List.nil_append]

/-- Witness for C6 at a concrete input: an unresolvable xref anchor under
the empty map. -/
theorem claim_C6_witness :
    (hasClass [("class", "xref"), ("href", "x.html")] "xref" = true ∧
      getAttr [("class", "xref"), ("href", "x.html")] "href" = some "x.html" ∧
      dictEmpty ("sub" ++ "/" ++ lstripSlash (urlparsePath "x.html")) = none) ∧
    transformNodes "sub" dictEmpty
        (HtmlNode.element "a" [("class", "xref"), ("href", "x.html")] [] :: []) =
      (HtmlNode.element "a" [("class", "xref"), ("href", "x.html")]
          (transformNodes "sub" dictEmpty []).1 :: (transformNodes "sub" dictEmpty []).1,
        unresolvedWarning ("sub" ++ "/" ++ lstripSlash (urlparsePath "x.html")) ::
          ((transformNodes "sub" dictEmpty []).2 ++ (transformNodes "sub" dictEmpty []).2)) :=
  ⟨⟨by decide, by decide, rfl⟩,
    claim_C6 "sub" dictEmpty [("class", "xref"), ("href", "x.html")] [] [] "x.html"
      (by decide) (by decide) rfl⟩

/-- C7: on markup containing no anchor element carrying the xref class
marker, at any depth, the rewrite returns the element tree structurally
unchanged, for every base path and path map. -/
theorem claim_C7 (base_dir : String) (mappings : Dict) (ns : List HtmlNode)
    (h : containsXrefAnchor ns = false) :
    (transformNodes base_dir mappings ns).1 = ns := by
  induction ns using transformNodes.induct base_dir mappings with
  | case1 => simp [transformNodes]
  | case2 s ns ih =>
    rw [containsXrefAnchor] at h
    rw [transformNodes]
    simp [ih h]
  | case3 tag attrs children ns hcond ihc ihn =>
    exfalso
    rw [containsXrefAnchor] at h
    simp only [Bool.or_eq_false_iff] at h
    exact absurd hcond (by simp [h.1.1])
  | case4 tag attrs children ns hcond ihc ihn =>
    rw [containsXrefAnchor] at h
    simp only [Bool.or_eq_false_iff] at h
    rw [transformNodes]
    simp only [if_neg hcond]
    simp [ihc h.1.2, ihn h.2]

/-- Witness for C7 at a concrete input: a small tree without xref anchors. -/
theorem claim_C7_witness :
    containsXrefAnchor
        [HtmlNode.element "p" [] [HtmlNode.text "x",
          HtmlNode.element "a" [("href", "y.html")] []]] = false ∧
    (transformNodes "" dictEmpty
        [HtmlNode.element "p" [] [HtmlNode.text "x",
          HtmlNode.element "a" [("href", "y.html")] []]]).1 =
      [HtmlNode.element "p" [] [HtmlNode.text "x",
        HtmlNode.element "a" [("href", "y.html")] []]] :=
  ⟨by simp [containsXrefAnchor, hasClass, getAttr, classTokens, classTokensAux],
    claim_C7 "" dictEmpty _
      (by simp [containsXrefAnchor, hasClass, getAttr, classTokens, classTokensAux])⟩

/-- C5: when the pre-update fetch reports version N, the submitted content
PUT carries version N+1 (and it is the first mutating call); when the fetch
response lacks an identifier, update_page fails with RemoteNotFoundError
carrying the server message and submits nothing at all. -/
theorem claim_C5 (page_id : Nat) (title content docfx_uid docfx_href : String)
    (fetchResp : FetchResp) (putResp : PutResp) (delResp : DelResp) (postResp : PostResp) :
    (fetchResp.id = none →
      ConfluenceClient.update_page page_id title content docfx_uid docfx_href
          fetchResp putResp delResp postResp =
        (Except.error (ClientError.RemoteNotFoundError fetchResp.message), [])) ∧
    (fetchResp.id ≠ none →
      ∃ rest, (ConfluenceClient.update_page page_id title content docfx_uid docfx_href
          fetchResp putResp delResp postResp).2 =
        RemoteCall.put
          { id := toString page_id, title := title, content := content,
            space := fetchResp.spaceKey, version := fetchResp.versionNumber + 1 } :: rest) := by
  constructor
  · intro h
    simp only [ConfluenceClient.update_page, h]
  · intro h
    rcases Option.ne_none_iff_exists'.mp h with ⟨s, hs⟩
    simp only [ConfluenceClient.update_page, hs]
    cases hput : putResp.id with
    | none => exact ⟨[], rfl⟩
    | some s2 =>
      cases hdel : delResp.message with
      | some msg => exact ⟨[RemoteCall.deleteProp page_id], rfl⟩
      | none =>
        exact ⟨[RemoteCall.deleteProp page_id,
          RemoteCall.postProp page_id docfx_uid docfx_href], rfl⟩

/-- Witness for C5 at concrete inputs: a fetch lacking an identifier on the
left, a successful fetch at version 3 on the right. -/
theorem claim_C5_witness :
    (ConfluenceClient.update_page 7 "t" "c" "u" "h"
        ⟨none, 3, "SP", "gone"⟩ ⟨some "7", ""⟩ ⟨none⟩ ⟨true, ""⟩ =
      (Except.error (ClientError.RemoteNotFoundError "gone"), [])) ∧
    ∃ rest, (ConfluenceClient.update_page 7 "t" "c" "u" "h"
        ⟨some "7", 3, "SP", ""⟩ ⟨some "7", ""⟩ ⟨none⟩ ⟨true, ""⟩).2 =
      RemoteCall.put
        { id := toString 7, title := "t", content := "c",
          space := "SP", version := 3 + 1 } :: rest :=
  ⟨(claim_C5 7 "t" "c" "u" "h" ⟨none, 3, "SP", "gone"⟩ ⟨some "7", ""⟩ ⟨none⟩ ⟨true, ""⟩).1 rfl,
    (claim_C5 7 "t" "c" "u" "h" ⟨some "7", 3, "SP", ""⟩ ⟨some "7", ""⟩ ⟨none⟩ ⟨true, ""⟩).2
      (by simp)⟩

/-- C8 counterexample: an update whose content PUT and metadata DELETE
succeed but whose metadata recreate POST reports failure still returns
success: no RemoteRequestError is raised for the failing recreate call,
whose response the code never inspects. -/
theorem claim_C8_counterexample :
    ConfluenceClient.update_page 7 "t" "c" "u" "h"
        ⟨some "7", 3, "SP", ""⟩ ⟨some "7", ""⟩ ⟨none⟩ ⟨false, "metadata recreate failed"⟩ =
      (Except.ok 7,
        [RemoteCall.put
            { id := toString 7, title := "t", content := "c",
              space := "SP", version := 3 + 1 },
          RemoteCall.deleteProp 7, RemoteCall.postProp 7 "u" "h"]) := rfl

/-- C8 (amended): after a successful fetch, a non-success response to the
content PUT (no identifier in the reply) or to the metadata DELETE (a
message in the reply) fails the update with RemoteRequestError surfacing the
server message; the response of the metadata recreate POST is never
inspected, so its failure is silent. -/
theorem claim_C8_amended (page_id : Nat) (title content docfx_uid docfx_href s : String)
    (fetchResp : FetchResp) (putResp : PutResp) (delResp : DelResp) (postResp : PostResp)
    (hf : fetchResp.id = some s) :
    (putResp.id = none →
      (ConfluenceClient.update_page page_id title content docfx_uid docfx_href
          fetchResp putResp delResp postResp).1 =
        Except.error (ClientError.RemoteRequestError putResp.message)) ∧
    (∀ msg, putResp.id ≠ none → delResp.message = some msg →
      (ConfluenceClient.update_page page_id title content docfx_uid docfx_href
          fetchResp putResp delResp postResp).1 =
        Except.error (ClientError.RemoteRequestError msg)) := by
  constructor
  · intro h
    simp only [ConfluenceClient.update_page, hf, h]
  · intro msg hput hdel
    rcases Option.ne_none_iff_exists'.mp hput with ⟨s2, hs2⟩
    simp only [ConfluenceClient.update_page, hf, hs2, hdel]

/-- Witness for C8 (amended) at concrete inputs: a failing PUT on the left,
a failing DELETE on the right. -/
theorem claim_C8_amended_witness :
    ((ConfluenceClient.update_page 7 "t" "c" "u" "h"
        ⟨some "7", 3, "SP", ""⟩ ⟨none, "put failed"⟩ ⟨none⟩ ⟨true, ""⟩).1 =
      Except.error (ClientError.RemoteRequestError "put failed")) ∧
    ((ConfluenceClient.update_page 7 "t" "c" "u" "h"
        ⟨some "7", 3, "SP", ""⟩ ⟨some "7", ""⟩ ⟨some "delete failed"⟩ ⟨true, ""⟩).1 =
      Except.error (ClientError.RemoteRequestError "delete failed")) :=
  ⟨(claim_C8_amended 7 "t" "c" "u" "h" "7"
      ⟨some "7", 3, "SP", ""⟩ ⟨none, "put failed"⟩ ⟨none⟩ ⟨true, ""⟩ rfl).1 rfl,
    (claim_C8_amended 7 "t" "c" "u" "h" "7"
      ⟨some "7", 3, "SP", ""⟩ ⟨some "7", ""⟩ ⟨some "delete failed"⟩ ⟨true, ""⟩ rfl).2
      "delete failed" (by simp) rfl⟩

/-- C9: the run is entirely independent of the space key supplied on the
command line, and every page-creation call it issues uses the literal space
key TEST. -/
theorem claim_C9 (sp : String) (cf : String → List HtmlNode)
    (xrefs : List XrefEntry) (st : Store) :
    (∀ sp2, mainRun sp cf xrefs st = mainRun sp2 cf xrefs st) ∧
    ∀ e ∈ (mainRun sp cf xrefs st).2, ∀ space title content uid href rid,
      e = CallEvent.create space title content uid href rid → space = "TEST" := by
  constructor
  · intro sp2
    rfl
  · intro e he space title content uid href rid heq
    subst heq
    rw [mainRun, updateLoop_events] at he
    rcases List.mem_append.mp he with h1 | h1
    · rw [createPhase, createLoop_events, List.nil_append] at h1
      rcases List.mem_map.mp h1 with ⟨a, _, hae⟩
      simp only [createEventOf, CallEvent.create.injEq] at hae
      exact hae.1.symm
    · rcases List.mem_map.mp h1 with ⟨a, _, hae⟩
      simp [updateEventOf] at hae

/-- Witness for C9 at a concrete input: a run that creates one page. -/
theorem claim_C9_witness :
    (CallEvent.create "TEST" (deriveTitle ⟨"b", "b.html", "B"⟩) placeholderContent
        "b" "b.html" 0 ∈ (mainRun "MYSPACE" (fun _ => []) [⟨"b", "b.html", "B"⟩] ⟨[], 0⟩).2 ∧
      CallEvent.create "TEST" (deriveTitle ⟨"b", "b.html", "B"⟩) placeholderContent
          "b" "b.html" 0 =
        CallEvent.create "TEST" (deriveTitle ⟨"b", "b.html", "B"⟩) placeholderContent
          "b" "b.html" 0) ∧
    "TEST" = "TEST" :=
  ⟨⟨by
      rw [mainRun, updateLoop_events]
      apply List.mem_append.mpr
      apply Or.inl
      rw [createPhase, createLoop_events, List.nil_append]
      apply List.mem_map.mpr
      refine ⟨(⟨"b", "b.html", "B"⟩, 0), ?_, rfl⟩
      have : newMappingsOf [⟨"b", "b.html", "B"⟩] ⟨[], 0⟩ = [⟨"b", "b.html", "B"⟩] := by
        rw [newMappingsOf, uidTableOf_eq]
        rfl
      rw [this]
      simp [assignIds], rfl⟩,
    (claim_C9 "MYSPACE" (fun _ => []) [⟨"b", "b.html", "B"⟩] ⟨[], 0⟩).2
      (CallEvent.create "TEST" (deriveTitle ⟨"b", "b.html", "B"⟩) placeholderContent "b" "b.html" 0)
      (by
        rw [mainRun, updateLoop_events]
        apply List.mem_append.mpr
        apply Or.inl
        rw [createPhase, createLoop_events, List.nil_append]
        apply List.mem_map.mpr
        refine ⟨(⟨"b", "b.html", "B"⟩, 0), ?_, rfl⟩
        have : newMappingsOf [⟨"b", "b.html", "B"⟩] ⟨[], 0⟩ = [⟨"b", "b.html", "B"⟩] := by
          rw [newMappingsOf, uidTableOf_eq]
          rfl
        rw [this]
        simp [assignIds])
      "TEST" (deriveTitle ⟨"b", "b.html", "B"⟩) placeholderContent "b" "b.html" 0 rfl⟩

/-- C10: create_page returns the id of the new page without raising even
when the metadata attach call reports failure (its response is never
inspected), and a page left without docfx metadata is invisible to the
listing that later runs match against. -/
theorem claim_C10 (space_key title content docfx_uid docfx_href : String)
    (createResp : CreateResp) (attachResp : PostResp) (pid : Nat)
    (hid : createResp.id = some pid) (hfail : attachResp.ok = false) :
    ConfluenceClient.create_page space_key title content docfx_uid docfx_href
        createResp attachResp = Except.ok pid ∧
    ∀ pages : List RemotePage, (∀ p ∈ pages, p.docfx = none) →
      get_confluence_mappings pages = [] := by
  constructor
  · simp only [ConfluenceClient.create_page, hid]
  · intro pages h
    rw [get_confluence_mappings_eq]
    apply List.filterMap_eq_nil_iff.mpr
    intro p hp
    simp [pageRecord, h p hp]

/-- Witness for C10 at a concrete input: a creation whose attach call
fails. -/
theorem claim_C10_witness :
    ((⟨some 9, ""⟩ : CreateResp).id = some 9 ∧ (⟨false, "boom"⟩ : PostResp).ok = false) ∧
    ConfluenceClient.create_page "S" "t" "c" "u" "h" ⟨some 9, ""⟩ ⟨false, "boom"⟩ =
      Except.ok 9 ∧
    ∀ pages : List RemotePage, (∀ p ∈ pages, p.docfx = none) →
      get_confluence_mappings pages = [] :=
  ⟨⟨rfl, rfl⟩, claim_C10 "S" "t" "c" "u" "h" ⟨some 9, ""⟩ ⟨false, "boom"⟩ 9 rfl rfl⟩
